import Mathlib

set_option maxRecDepth 10000

/-!
Shallow embedding of the borsh graph codec from
`src/graph_impl/borsh_serialization.rs` together with the collaborator
pieces it relies on (primitive borsh codec, the graph engine's raw
arrays and its `link_edges` relinking pass).

Conventions of the embedding:
* a byte stream is a `List Nat` (each produced byte is `< 256`);
* the generic fixed-width unsigned index type `Ix` is modelled by its
  byte width `w`; its maximum value (`IndexType::max`, the adjacency
  sentinel) is `256 ^ w - 1`;
* fallible operations return `Except DErr`;
* generic node / edge weight types are parameters together with their
  borsh encoders/decoders.
-/

namespace Petgraph

/-- Decode-time errors.  `eof` and `badTag` are the primitive borsh
codec's own failures (truncated input / unknown enum discriminant);
`invalidData` models `ErrorKind::InvalidData`; `other` models
`Error::new(ErrorKind::Other, msg)` used by the graph codec. -/
inductive DErr where
  | eof : DErr
  | badTag : Nat → DErr
  | invalidData : String → DErr
  | other : String → DErr
deriving DecidableEq, Repr

/-- Error produced by `PhantomData::<Ty>::from_deserialized` on a
direction-tag mismatch. -/
def dirMismatchErr : DErr := .other "graph edge property mismatch"

/-- Error produced by `Graph::from_deserialized` when a parsed length
reaches the index type's maximum. -/
def capacityErr : DErr := .other "invalid size"

/-- Error produced by `Edge::deserialize` on the `None` wire variant. -/
def holeErr : DErr :=
  .other "Graph can not have holes in the edge set, found None, expected edge"

/-- `IndexType::max().index()` for an index of byte width `w`: the
largest representable value, reserved as the adjacency sentinel. -/
def IxMax (w : Nat) : Nat := 256 ^ w - 1

/-- `EdgeIndex::end()`: the sentinel terminating adjacency chains. -/
def sentinel (w : Nat) : Nat := IxMax w

/-! ### Primitive borsh codec (collaborator, per the wire conventions) -/

/-- Borsh encoding of an unsigned integer of byte width `w`:
little-endian, fixed width. -/
def serUInt : Nat → Nat → List Nat
  | 0, _ => []
  | w + 1, v => v % 256 :: serUInt w (v / 256)

/-- Borsh decoding of an unsigned integer of byte width `w`. -/
def deserUInt : Nat → List Nat → Except DErr (Nat × List Nat)
  | 0, bs => .ok (0, bs)
  | _ + 1, [] => .error .eof
  | w + 1, b :: bs =>
    match deserUInt w bs with
    | .error e => .error e
    | .ok (v, r) => .ok (b + 256 * v, r)

/-- Borsh encoding of a sequence: `u32` little-endian length followed by
the elements in order. -/
def serVec (enc : α → List Nat) (xs : List α) : List Nat :=
  serUInt 4 xs.length ++ xs.foldr (fun x acc => enc x ++ acc) []

/-- Read `n` consecutive elements with the element decoder. -/
def deserElems (dec : List Nat → Except DErr (α × List Nat)) :
    Nat → List Nat → Except DErr (List α × List Nat)
  | 0, bs => .ok ([], bs)
  | n + 1, bs =>
    match dec bs with
    | .error e => .error e
    | .ok (a, r) =>
      match deserElems dec n r with
      | .error e => .error e
      | .ok (as_, r') => .ok (a :: as_, r')

/-- Borsh decoding of a sequence. -/
def deserVec (dec : List Nat → Except DErr (α × List Nat))
    (bs : List Nat) : Except DErr (List α × List Nat) :=
  match deserUInt 4 bs with
  | .error e => .error e
  | .ok (n, r) => deserElems dec n r

/-! ### Data model (graph engine collaborator) -/

/-- `Node<N, Ix>`: weight plus the two adjacency-list head pointers
(`next[0]` outgoing, `next[1]` incoming). -/
structure Node (N : Type) where
  weight : N
  next0 : Nat
  next1 : Nat
deriving DecidableEq, Repr

/-- `Edge<E, Ix>`: weight, the two endpoints (`node[0]` source,
`node[1]` target) and the two intrusive "next edge" pointers. -/
structure Edge (E : Type) where
  weight : E
  source : Nat
  target : Nat
  next0 : Nat
  next1 : Nat
deriving DecidableEq, Repr

/-- The raw arrays of `Graph<N, E, Ty, Ix>`; the direction `Ty` is a
static (phantom) parameter and is passed to the operations as a `Bool`
(`true` = directed). -/
structure Graph (N E : Type) where
  nodes : List (Node N)
  edges : List (Edge E)
deriving DecidableEq, Repr

/-- Wire direction discriminant. -/
inductive EdgeProperty where
  | undirected : EdgeProperty
  | directed : EdgeProperty
deriving DecidableEq, Repr

/-- `EdgeProperty::is_directed`. -/
def EdgeProperty.is_directed : EdgeProperty → Bool
  | .directed => true
  | .undirected => false

/-- `From<PhantomData<Ty>> for EdgeProperty`: derive the tag from the
static direction. -/
def edgePropertyOf (dir : Bool) : EdgeProperty :=
  if dir then .directed else .undirected

/-- `BorshSerGraph<N, E, Ix>`: the serialization mirror. -/
structure BorshSerGraph (N E : Type) where
  nodes : List (Node N)
  node_holes : List Nat
  edge_property : EdgeProperty
  edges : List (Edge E)
deriving DecidableEq, Repr

/-- `BorshDeserGraph<N, E, Ix>`: the deserialization mirror (same wire
shape). -/
structure BorshDeserGraph (N E : Type) where
  nodes : List (Node N)
  node_holes : List Nat
  edge_property : EdgeProperty
  edges : List (Edge E)
deriving DecidableEq, Repr

/-! ### Record codecs -/

/-- `BorshSerialize for NodeIndex`: writes the underlying integer. -/
def serNodeIndex (w : Nat) (i : Nat) : List Nat := serUInt w i

/-- `BorshSerialize for EdgeIndex`: writes the underlying integer. -/
def serEdgeIndex (w : Nat) (i : Nat) : List Nat := serUInt w i

/-- Modelled from the spec: `NodeIndex::try_from` (the engine's
conversion, not under `src/`) — "Decode fails with a size-mismatch
error if the integer is not representable in the target index width". -/
def tryFromIx (w : Nat) (v : Nat) : Except DErr Nat :=
  if v < 256 ^ w then .ok v else .error (.invalidData "index size mismatch")

/-- `BorshDeserialize for NodeIndex`: read the integer, convert through
`try_from`. -/
def deserNodeIndex (w : Nat) (bs : List Nat) : Except DErr (Nat × List Nat) :=
  match deserUInt w bs with
  | .error e => .error e
  | .ok (v, r) =>
    match tryFromIx w v with
    | .error e => .error e
    | .ok i => .ok (i, r)

/-- `BorshDeserialize for EdgeIndex`. -/
def deserEdgeIndex (w : Nat) (bs : List Nat) : Except DErr (Nat × List Nat) :=
  match deserUInt w bs with
  | .error e => .error e
  | .ok (v, r) =>
    match tryFromIx w v with
    | .error e => .error e
    | .ok i => .ok (i, r)

/-- `BorshSerialize for Node`: the weight only. -/
def serNode (encN : N → List Nat) (nd : Node N) : List Nat := encN nd.weight

/-- `BorshDeserialize for Node`: read the weight, install sentinel
adjacency heads. -/
def deserNode (w : Nat) (decN : List Nat → Except DErr (N × List Nat))
    (bs : List Nat) : Except DErr (Node N × List Nat) :=
  match decN bs with
  | .error e => .error e
  | .ok (wt, r) => .ok (⟨wt, sentinel w, sentinel w⟩, r)

/-- Borsh encoding of `Option<(NodeIndex, NodeIndex, E)>`: one tag byte
then, for `Some`, the fields in order. -/
def serOptTriple (w : Nat) (encE : E → List Nat) :
    Option (Nat × Nat × E) → List Nat
  | none => [0]
  | some (s, t, wt) => 1 :: (serNodeIndex w s ++ serNodeIndex w t ++ encE wt)

/-- Borsh decoding of `Option<(NodeIndex, NodeIndex, E)>`. -/
def deserOptTriple (w : Nat) (decE : List Nat → Except DErr (E × List Nat))
    (bs : List Nat) : Except DErr (Option (Nat × Nat × E) × List Nat) :=
  match bs with
  | [] => .error .eof
  | 0 :: r => .ok (none, r)
  | 1 :: r =>
    match deserNodeIndex w r with
    | .error e => .error e
    | .ok (s, r1) =>
      match deserNodeIndex w r1 with
      | .error e => .error e
      | .ok (t, r2) =>
        match decE r2 with
        | .error e => .error e
        | .ok (wt, r3) => .ok (some (s, t, wt), r3)
  | b :: _ => .error (.badTag b)

/-- `BorshSerialize for Edge`: always the `Some` branch around
`(source, target, weight)`. -/
def serEdge (w : Nat) (encE : E → List Nat) (e : Edge E) : List Nat :=
  serOptTriple w encE (some (e.source, e.target, e.weight))

/-- `BorshDeserialize for Edge`: require the `Some` branch, install
sentinel `next` pointers; `None` is the hole error. -/
def deserEdge (w : Nat) (decE : List Nat → Except DErr (E × List Nat))
    (bs : List Nat) : Except DErr (Edge E × List Nat) :=
  match deserOptTriple w decE bs with
  | .error e => .error e
  | .ok (some (s, t, wt), r) => .ok (⟨wt, s, t, sentinel w, sentinel w⟩, r)
  | .ok (none, _) => .error holeErr

/-- Borsh encoding of `EdgeProperty` (derived: discriminant byte in
declaration order). -/
def serEdgeProperty : EdgeProperty → List Nat
  | .undirected => [0]
  | .directed => [1]

/-- Borsh decoding of `EdgeProperty`. -/
def deserEdgeProperty (bs : List Nat) :
    Except DErr (EdgeProperty × List Nat) :=
  match bs with
  | [] => .error .eof
  | 0 :: r => .ok (.undirected, r)
  | 1 :: r => .ok (.directed, r)
  | b :: _ => .error (.badTag b)

/-- Derived `BorshSerialize for BorshSerGraph`: the four fields in
declaration order. -/
def serMirror (w : Nat) (encN : N → List Nat) (encE : E → List Nat)
    (m : BorshSerGraph N E) : List Nat :=
  serVec (serNode encN) m.nodes ++ serVec (serNodeIndex w) m.node_holes ++
    serEdgeProperty m.edge_property ++ serVec (serEdge w encE) m.edges

/-- Derived `BorshDeserialize for BorshDeserGraph`. -/
def deserMirror (w : Nat) (decN : List Nat → Except DErr (N × List Nat))
    (decE : List Nat → Except DErr (E × List Nat)) (bs : List Nat) :
    Except DErr (BorshDeserGraph N E × List Nat) :=
  match deserVec (deserNode w decN) bs with
  | .error e => .error e
  | .ok (nds, r1) =>
    match deserVec (deserNodeIndex w) r1 with
    | .error e => .error e
    | .ok (holes, r2) =>
      match deserEdgeProperty r2 with
      | .error e => .error e
      | .ok (ep, r3) =>
        match deserVec (deserEdge w decE) r3 with
        | .error e => .error e
        | .ok (eds, r4) => .ok (⟨nds, holes, ep, eds⟩, r4)

/-! ### Graph codec -/

/-- `IntoSerializable for Graph::into_serializable`: clone the raw
arrays, empty hole list, tag from the static direction. -/
def into_serializable (dir : Bool) (g : Graph N E) : BorshSerGraph N E :=
  ⟨g.nodes, [], edgePropertyOf dir, g.edges⟩

/-- `BorshSerialize for Graph::serialize`: serialize the mirror. -/
def serGraph (w : Nat) (dir : Bool) (encN : N → List Nat)
    (encE : E → List Nat) (g : Graph N E) : List Nat :=
  serMirror w encN encE (into_serializable dir g)

/-- `FromDeserialized for PhantomData<Ty>::from_deserialized`: the
direction cross-check. -/
def phantom_from_deserialized (dir : Bool) (input : EdgeProperty) :
    Except DErr Unit :=
  if input.is_directed ≠ dir then .error dirMismatchErr else .ok ()

/-- Set node `i`'s outgoing head. -/
def updNext0 (nodes : List (Node N)) (i v : Nat) : List (Node N) :=
  match nodes.get? i with
  | none => nodes
  | some nd => nodes.set i ⟨nd.weight, v, nd.next1⟩

/-- Set node `i`'s incoming head. -/
def updNext1 (nodes : List (Node N)) (i v : Nat) : List (Node N) :=
  match nodes.get? i with
  | none => nodes
  | some nd => nodes.set i ⟨nd.weight, nd.next0, v⟩

/-- Modelled from the spec: the loop body of the engine's
`Graph::link_edges` (the relinking pass is not under `src/`).  A single
pass over edges in array order starting at position `k`; edge `k` with
endpoints `(s, t)` is spliced onto the head of `s`'s outgoing list and
the head of `t`'s incoming list; an endpoint out of `[0, len(nodes))`
stops the pass, reporting the offending node index.  The state reached
so far (the in-place mutation) is returned alongside.  `fuel` bounds the
iteration; `edges.length` steps always complete the pass. -/
def linkAux : Nat → List (Node N) → List (Edge E) → Nat →
    List (Node N) × List (Edge E) × Option Nat
  | 0, nodes, edges, _ => (nodes, edges, none)
  | fuel + 1, nodes, edges, k =>
    match edges.get? k with
    | none => (nodes, edges, none)
    | some e =>
      match nodes.get? e.source, nodes.get? e.target with
      | some ns, some nt =>
        linkAux fuel (updNext1 (updNext0 nodes e.source k) e.target k)
          (edges.set k ⟨e.weight, e.source, e.target, ns.next0, nt.next1⟩)
          (k + 1)
      | _, _ =>
        (nodes, edges,
          some (if nodes.length ≤ e.source then e.source else e.target))

/-- Modelled from the spec: `Graph::link_edges` run on a whole graph;
returns the mutated graph and `some i` when a dangling endpoint aborted
the pass. -/
def link_edges (g : Graph N E) : Graph N E × Option Nat :=
  let r := linkAux g.edges.length g.nodes g.edges 0
  (⟨r.1, r.2.1⟩, r.2.2)

/-- `FromDeserialized for Graph::from_deserialized`: direction check,
capacity checks, assemble arrays, relink.  NOTE (as in the source): the
`Result` of `link_edges` is built and then discarded — a relinking
failure does not propagate, the (possibly partially linked) graph is
returned. -/
def from_deserialized (w : Nat) (dir : Bool) (input : BorshDeserGraph N E) :
    Except DErr (Graph N E) :=
  match phantom_from_deserialized dir input.edge_property with
  | .error e => .error e
  | .ok _ =>
    if IxMax w ≤ input.nodes.length then .error capacityErr
    else if IxMax w ≤ input.edges.length then .error capacityErr
    else .ok (link_edges ⟨input.nodes, input.edges⟩).1

/-- `BorshDeserialize for Graph::deserialize`: parse the mirror, then
`from_deserialized`. -/
def decodeGraph (w : Nat) (dir : Bool)
    (decN : List Nat → Except DErr (N × List Nat))
    (decE : List Nat → Except DErr (E × List Nat)) (bs : List Nat) :
    Except DErr (Graph N E) :=
  match deserMirror w decN decE bs with
  | .error e => .error e
  | .ok (m, _) => from_deserialized w dir m

/-! ### Adjacency-chain observation -/

/-- The endpoint of an edge owning its direction-`d` chain membership:
`false` = source (outgoing lists), `true` = target (incoming lists). -/
def Edge.endp (e : Edge E) (d : Bool) : Nat :=
  if d then e.target else e.source

/-- The direction-`d` "next" pointer of an edge. -/
def Edge.nextAt (e : Edge E) (d : Bool) : Nat :=
  if d then e.next1 else e.next0

/-- The direction-`d` adjacency head of a node. -/
def Node.headAt (nd : Node N) (d : Bool) : Nat :=
  if d then nd.next1 else nd.next0

/-- Follow direction-`d` "next" pointers from `cur`, collecting visited
edge indices; `some l` means the walk reached the sentinel within
`fuel` steps having visited exactly `l` (in order). -/
def chase (edges : List (Edge E)) (sent : Nat) (d : Bool) :
    Nat → Nat → Option (List Nat)
  | 0, _ => none
  | fuel + 1, cur =>
    if cur = sent then some []
    else
      match edges.get? cur with
      | none => none
      | some e =>
        match chase edges sent d fuel (e.nextAt d) with
        | none => none
        | some l => some (cur :: l)

/-- The edge indices below `k` whose direction-`d` endpoint is `v`, in
decreasing order (the order head-splicing produces). -/
def descFilter (edges : List (Edge E)) (d : Bool) (v k : Nat) : List Nat :=
  ((List.range k).filter (fun i =>
    match edges.get? i with
    | some e => e.endp d == v
    | none => false)).reverse

/-! ### Concrete leaf codecs used by witnesses -/

/-- Borsh codec of the unit weight: zero bytes. -/
def serUnit (_ : Unit) : List Nat := []

/-- Borsh decoding of the unit weight. -/
def deserUnit (bs : List Nat) : Except DErr (Unit × List Nat) := .ok ((), bs)

/-! ### Output-sink (writer) model -/

/-- Feed a byte stream to a fallible single-byte sink, threading its
state; `none` models a propagated write failure. -/
def writeBytes (wr : σ → Nat → Option σ) : σ → List Nat → Option σ
  | s, [] => some s
  | s, b :: bs =>
    match wr s b with
    | none => none
    | some s' => writeBytes wr s' bs


instance {ε α : Type} [DecidableEq ε] [DecidableEq α] : DecidableEq (Except ε α) := fun x y =>
  match x, y with
  | .ok a, .ok b => if h : a = b then .isTrue (by rw [h]) else .isFalse (by intro hc; cases hc; exact h rfl)
  | .error a, .error b => if h : a = b then .isTrue (by rw [h]) else .isFalse (by intro hc; cases hc; exact h rfl)
  | .ok _, .error _ => .isFalse (by intro hc; cases hc)
  | .error _, .ok _ => .isFalse (by intro hc; cases hc)

/-- The serialization-relevant observation of an edge: weight and
endpoints (what `Edge::serialize` reads). -/
def edgeObs {E : Type} (e : Edge E) : E × Nat × Nat := (e.weight, e.source, e.target)

/-- The chain-membership predicate: does edge `i` of `edges` have
direction-`d` endpoint `v`? -/
def epred (edges : List (Edge E)) (d : Bool) (v : Nat) (i : Nat) : Bool :=
  match edges.get? i with
  | some e => e.endp d == v
  | none => false

/-- The node-array effect of splicing edge `k` with endpoints `(s, t)`. -/
def stepNodes (nodes : List (Node N)) (s t k : Nat) : List (Node N) :=
  updNext1 (updNext0 nodes s k) t k

/-- The edge record after splicing: old heads become its next pointers. -/
def stepEdge (e : Edge E) (ns nt : Node N) : Edge E :=
  ⟨e.weight, e.source, e.target, ns.next0, nt.next1⟩

/-! ### Verification -/

theorem deserUInt_serUInt (w : Nat) : ∀ (v : Nat) (r : List Nat),
    deserUInt w (serUInt w v ++ r) = .ok (v % 256 ^ w, r) := by
  induction w with
  | zero => intro v r; simp [serUInt, deserUInt, Nat.mod_one]
  | succ w ih =>
    intro v r
    show deserUInt (w + 1) (v % 256 :: (serUInt w (v / 256) ++ r)) = _
    simp only [deserUInt, ih]
    rw [pow_succ', Nat.mod_mul]

theorem serUInt_length (w v : Nat) : (serUInt w v).length = w := by
  induction w generalizing v with
  | zero => rfl
  | succ w ih => simp [serUInt, ih]

theorem serVec_map {α : Type} (enc : α → List Nat) (xs : List α) :
    serVec enc xs = serUInt 4 (xs.map enc).length ++
      (xs.map enc).foldr (fun l acc => l ++ acc) [] := by
  simp [serVec, List.foldr_map, List.length_map]

theorem writeBytes_isSome {σ : Type} (wr : σ → Nat → Option σ)
    (hwr : ∀ s b, (wr s b).isSome) :
    ∀ (bs : List Nat) (s : σ), (writeBytes wr s bs).isSome := by
  intro bs
  induction bs with
  | nil => intro s; simp [writeBytes]
  | cons b bs ih =>
    intro s
    have h := hwr s b
    cases hwb : wr s b with
    | none => rw [hwb] at h; simp at h
    | some s' => simp [writeBytes, hwb, ih]

theorem deserUInt_error (w : Nat) : ∀ (bs : List Nat) (e : DErr),
    deserUInt w bs = .error e → e = .eof := by
  induction w with
  | zero => intro bs e h; simp [deserUInt] at h
  | succ w ih =>
    intro bs e h
    cases bs with
    | nil =>
      simp [deserUInt] at h
      exact h.symm
    | cons b r =>
      cases heq : deserUInt w r with
      | error e2 =>
        simp only [deserUInt, heq] at h
        injection h with h2
        exact h2 ▸ ih r e2 heq
      | ok p =>
        obtain ⟨v, r2⟩ := p
        simp only [deserUInt, heq] at h
        exact Except.noConfusion h

/-- C9: index codec correctness.  Encoding a NodeIndex or EdgeIndex writes
exactly its underlying fixed-width unsigned integer (`w` bytes), decoding
those bytes returns the original index for every representable value `i`,
and the `try_from` conversion fails with a size-mismatch error exactly when
the read integer is not representable in the target index width. -/
theorem c9_index_codec (w i : Nat) (hi : i < 256 ^ w) :
    (serNodeIndex w i).length = w ∧ (serEdgeIndex w i).length = w ∧
    (∀ r, deserNodeIndex w (serNodeIndex w i ++ r) = .ok (i, r)) ∧
    (∀ r, deserEdgeIndex w (serEdgeIndex w i ++ r) = .ok (i, r)) ∧
    (∀ v, (∃ e, tryFromIx w v = .error e) ↔ 256 ^ w ≤ v) := by
  refine ⟨serUInt_length w i, serUInt_length w i, ?_, ?_, ?_⟩
  · intro r
    show deserNodeIndex w (serUInt w i ++ r) = .ok (i, r)
    simp [deserNodeIndex, deserUInt_serUInt, Nat.mod_eq_of_lt hi, tryFromIx, hi]
  · intro r
    show deserEdgeIndex w (serUInt w i ++ r) = .ok (i, r)
    simp [deserEdgeIndex, deserUInt_serUInt, Nat.mod_eq_of_lt hi, tryFromIx, hi]
  · intro v
    constructor
    · rintro ⟨e, he⟩
      by_contra h
      push_neg at h
      simp [tryFromIx, h] at he
    · intro h
      exact ⟨.invalidData "index size mismatch", by simp [tryFromIx, Nat.not_lt.mpr h]⟩

theorem c9_witness :
    7 < 256 ^ 4 ∧
    ((serNodeIndex 4 7).length = 4 ∧ (serEdgeIndex 4 7).length = 4 ∧
     (∀ r, deserNodeIndex 4 (serNodeIndex 4 7 ++ r) = .ok (7, r)) ∧
     (∀ r, deserEdgeIndex 4 (serEdgeIndex 4 7 ++ r) = .ok (7, r)) ∧
     (∀ v, (∃ e, tryFromIx 4 v = .error e) ↔ 256 ^ 4 ≤ v)) :=
  ⟨by decide, c9_index_codec 4 7 (by decide)⟩

/-- C7: graph encode is deterministic and failure-free.  Identical
in-memory graphs produce identical byte streams, and feeding the produced
stream to any output sink whose single-byte writes always succeed
completes successfully. -/
theorem c7_encode_deterministic_total {σ N E : Type} (wr : σ → Nat → Option σ)
    (s0 : σ) (w : Nat) (dir : Bool) (encN : N → List Nat) (encE : E → List Nat)
    (g1 g2 : Graph N E) (hwr : ∀ s b, (wr s b).isSome) (heq : g1 = g2) :
    serGraph w dir encN encE g1 = serGraph w dir encN encE g2 ∧
    (writeBytes wr s0 (serGraph w dir encN encE g1)).isSome =  true :=
  ⟨by rw [heq], writeBytes_isSome wr hwr _ s0⟩

theorem c7_witness :
    (∀ (s : Unit) (b : Nat), ((fun (u : Unit) (_ : Nat) => some u) s b).isSome) ∧
    (serGraph 1 true serUnit serUnit (⟨[⟨(), 3, 4⟩], []⟩ : Graph Unit Unit) =
      serGraph 1 true serUnit serUnit ⟨[⟨(), 3, 4⟩], []⟩ ∧
     (writeBytes (fun (u : Unit) (_ : Nat) => some u) ()
       (serGraph 1 true serUnit serUnit (⟨[⟨(), 3, 4⟩], []⟩ : Graph Unit Unit))).isSome = true) :=
  ⟨fun _ _ => rfl,
   c7_encode_deterministic_total _ () 1 true serUnit serUnit _ _ (fun _ _ => rfl) rfl⟩

/-- C10: encoding is independent of adjacency pointers.  Two graphs whose
node weights and whose edge (weight, source, target) observations agree
position-by-position — the intrusive head/next pointer fields may differ
arbitrarily — serialize to identical byte streams. -/
theorem c10_adjacency_independent {N E : Type} (w : Nat) (dir : Bool)
    (encN : N → List Nat) (encE : E → List Nat) (g1 g2 : Graph N E)
    (hn : g1.nodes.map Node.weight = g2.nodes.map Node.weight)
    (he : g1.edges.map edgeObs = g2.edges.map edgeObs) :
    serGraph w dir encN encE g1 = serGraph w dir encN encE g2 := by
  have hn' : g1.nodes.map (serNode encN) = g2.nodes.map (serNode encN) := by
    have h1 : ∀ (g : Graph N E), g.nodes.map (serNode encN) =
        (g.nodes.map Node.weight).map encN := by
      intro g; rw [List.map_map]; rfl
    rw [h1, h1, hn]
  have he' : g1.edges.map (serEdge w encE) = g2.edges.map (serEdge w encE) := by
    have h1 : ∀ (g : Graph N E), g.edges.map (serEdge w encE) =
        (g.edges.map edgeObs).map
          (fun o => serOptTriple w encE (some (o.2.1, o.2.2, o.1))) := by
      intro g; rw [List.map_map]; rfl
    rw [h1, h1, he]
  show serVec (serNode encN) g1.nodes ++ serVec (serNodeIndex w) [] ++
      serEdgeProperty (edgePropertyOf dir) ++ serVec (serEdge w encE) g1.edges =
    serVec (serNode encN) g2.nodes ++ serVec (serNodeIndex w) [] ++
      serEdgeProperty (edgePropertyOf dir) ++ serVec (serEdge w encE) g2.edges
  rw [serVec_map (serNode encN) g1.nodes, serVec_map (serNode encN) g2.nodes, hn',
    serVec_map (serEdge w encE) g1.edges, serVec_map (serEdge w encE) g2.edges, he']

theorem c10_witness :
    ((⟨[⟨(), 3, 4⟩, ⟨(), 9, 9⟩], [⟨(), 0, 1, 7, 8⟩]⟩ : Graph Unit Unit).nodes.map Node.weight =
      (⟨[⟨(), 255, 255⟩, ⟨(), 0, 0⟩], [⟨(), 0, 1, 255, 255⟩]⟩ : Graph Unit Unit).nodes.map Node.weight) ∧
    serGraph 1 true serUnit serUnit (⟨[⟨(), 3, 4⟩, ⟨(), 9, 9⟩], [⟨(), 0, 1, 7, 8⟩]⟩ : Graph Unit Unit) =
      serGraph 1 true serUnit serUnit ⟨[⟨(), 255, 255⟩, ⟨(), 0, 0⟩], [⟨(), 0, 1, 255, 255⟩]⟩ :=
  ⟨by decide, c10_adjacency_independent 1 true serUnit serUnit _ _ (by decide) (by decide)⟩

/-- C3: direction enforcement.  If the parsed mirror's wire direction tag
disagrees with the statically expected direction, `from_deserialized`
fails with the direction-mismatch error (whatever the rest of the mirror
holds); if the tag agrees, the `PhantomData::from_deserialized` check
passes. -/
theorem c3_direction_check {N E : Type} (w : Nat) (dir : Bool)
    (m : BorshDeserGraph N E) :
    (m.edge_property.is_directed ≠ dir →
      from_deserialized w dir m = .error dirMismatchErr) ∧
    (m.edge_property.is_directed = dir →
      phantom_from_deserialized dir m.edge_property = .ok ()) := by
  constructor
  · intro h
    simp [from_deserialized, phantom_from_deserialized, h]
  · intro h
    simp [phantom_from_deserialized, h]

theorem c3_witness :
    from_deserialized 1 false
        (⟨[], [], .directed, []⟩ : BorshDeserGraph Unit Unit) =
      .error dirMismatchErr ∧
    from_deserialized 1 true
        (⟨[], [], .undirected, []⟩ : BorshDeserGraph Unit Unit) =
      .error dirMismatchErr ∧
    phantom_from_deserialized true EdgeProperty.directed = .ok () :=
  ⟨(c3_direction_check 1 false ⟨[], [], .directed, []⟩).1 (by decide),
   (c3_direction_check 1 true ⟨[], [], .undirected, []⟩).1 (by decide),
   (c3_direction_check 1 true (⟨[], [], .directed, []⟩ : BorshDeserGraph Unit Unit)).2 rfl⟩

/-- C4: capacity boundary.  With a matching direction tag, decode fails
with the capacity error whenever the parsed node count or parsed edge
count reaches the index type's maximum; concretely (`w = 1`, maximum
255), a stream with 255 nodes fails with that error while the otherwise
identical stream with 254 nodes decodes successfully. -/
theorem c4_capacity {N E : Type} (w : Nat) (dir : Bool) (m : BorshDeserGraph N E)
    (hdir : m.edge_property.is_directed = dir)
    (hcap : IxMax w ≤ m.nodes.length ∨ IxMax w ≤ m.edges.length) :
    from_deserialized w dir m = .error capacityErr ∧
    decodeGraph 1 false deserUnit deserUnit
      [255, 0, 0, 0, 0, 0, 0, 0, 0, 0, 0, 0, 0] = .error capacityErr ∧
    decodeGraph 1 false deserUnit deserUnit
      [254, 0, 0, 0, 0, 0, 0, 0, 0, 0, 0, 0, 0] =
      .ok ⟨List.replicate 254 ⟨(), 255, 255⟩, []⟩ := by
  refine ⟨?_, by decide, by decide⟩
  unfold from_deserialized
  rw [phantom_from_deserialized, if_neg (by simp [hdir])]
  rcases hcap with h | h
  · rw [if_pos h]
  · by_cases h2 : IxMax w ≤ m.nodes.length
    · rw [if_pos h2]
    · rw [if_neg h2, if_pos h]

theorem c4_witness :
    (EdgeProperty.is_directed .undirected = false ∧
      (IxMax 1 ≤ (List.replicate 255 (⟨(), 255, 255⟩ : Node Unit)).length ∨
        IxMax 1 ≤ ([] : List (Edge Unit)).length)) ∧
    from_deserialized 1 false
      (⟨List.replicate 255 ⟨(), 255, 255⟩, [], .undirected, []⟩ :
        BorshDeserGraph Unit Unit) = .error capacityErr :=
  ⟨⟨rfl, by decide⟩,
   (c4_capacity 1 false ⟨List.replicate 255 ⟨(), 255, 255⟩, [], .undirected, []⟩
     rfl (by decide)).1⟩

theorem deserNodeIndex_not_holeErr (w : Nat) (bs : List Nat) :
    deserNodeIndex w bs ≠ .error holeErr := by
  intro h
  unfold deserNodeIndex at h
  cases heq : deserUInt w bs with
  | error e =>
    rw [heq] at h
    injection h with h2
    have := deserUInt_error w bs e heq
    rw [this] at h2
    simp [holeErr] at h2
  | ok p =>
    obtain ⟨v, r⟩ := p
    rw [heq] at h
    by_cases hv : v < 256 ^ w
    · simp [tryFromIx, hv] at h
    · simp [tryFromIx, hv, holeErr] at h

theorem deserOptTriple_not_holeErr {E : Type} (w : Nat)
    (decE : List Nat → Except DErr (E × List Nat))
    (hdecE : ∀ bs, decE bs ≠ .error holeErr) (bs : List Nat) :
    deserOptTriple w decE bs ≠ .error holeErr := by
  intro h
  rcases bs with _ | ⟨_ | _ | b, r⟩
  · simp [deserOptTriple, holeErr] at h
  · simp [deserOptTriple] at h
  · simp only [deserOptTriple] at h
    cases h1 : deserNodeIndex w r with
    | error e =>
      simp only [h1] at h
      injection h with h2
      exact deserNodeIndex_not_holeErr w r (h2 ▸ h1)
    | ok p =>
      obtain ⟨s, r1⟩ := p
      simp only [h1] at h
      cases h2 : deserNodeIndex w r1 with
      | error e =>
        simp only [h2] at h
        injection h with h3
        exact deserNodeIndex_not_holeErr w r1 (h3 ▸ h2)
      | ok p2 =>
        obtain ⟨t, r2⟩ := p2
        simp only [h2] at h
        cases h3 : decE r2 with
        | error e =>
          simp only [h3] at h
          injection h with h4
          exact hdecE r2 (h4 ▸ h3)
        | ok p3 =>
          obtain ⟨wt, r3⟩ := p3
          simp only [h3] at h
          exact Except.noConfusion h
  · simp [deserOptTriple, holeErr] at h

/-- C5: edge-record hole rejection.  Edge decode fails with the
hole-not-allowed error exactly when the optional wrapper parses to the
absent (`None`) variant; on the present variant it returns an edge with
the parsed source, target and weight (and sentinel next pointers); and
edge encode always emits the present variant (leading tag byte 1). -/
theorem c5_edge_record {E : Type} (w : Nat)
    (decE : List Nat → Except DErr (E × List Nat)) (encE : E → List Nat)
    (hdecE : ∀ bs, decE bs ≠ .error holeErr) :
    (∀ bs r, deserOptTriple w decE bs = .ok (none, r) →
      deserEdge w decE bs = .error holeErr) ∧
    (∀ bs r s t wt, deserOptTriple w decE bs = .ok (some (s, t, wt), r) →
      deserEdge w decE bs = .ok (⟨wt, s, t, sentinel w, sentinel w⟩, r)) ∧
    (∀ bs, deserEdge w decE bs = .error holeErr →
      ∃ r, deserOptTriple w decE bs = .ok (none, r)) ∧
    (∀ e : Edge E, ∃ tail, serEdge w encE e = 1 :: tail) := by
  refine ⟨?_, ?_, ?_, fun e => ⟨_, rfl⟩⟩
  · intro bs r h
    unfold deserEdge
    rw [h]
  · intro bs r s t wt h
    unfold deserEdge
    rw [h]
  · intro bs h
    unfold deserEdge at h
    cases heq : deserOptTriple w decE bs with
    | error e =>
      rw [heq] at h
      injection h with h2
      exact absurd (h2 ▸ heq) (deserOptTriple_not_holeErr w decE hdecE bs)
    | ok p =>
      obtain ⟨opt, r⟩ := p
      cases opt with
      | none => exact ⟨r, rfl⟩
      | some tri =>
        obtain ⟨s, t, wt⟩ := tri
        rw [heq] at h
        exact Except.noConfusion h

theorem c5_witness :
    (∀ bs, deserUnit bs ≠ .error holeErr) ∧
    deserEdge 1 deserUnit [0] = .error holeErr ∧
    deserEdge 1 deserUnit [1, 0, 1] = .ok (⟨(), 0, 1, 255, 255⟩, []) ∧
    (∃ tail, serEdge 1 serUnit (⟨(), 0, 1, 9, 9⟩ : Edge Unit) = 1 :: tail) := by
  exact ⟨fun bs h => Except.noConfusion h,
    (c5_edge_record 1 deserUnit serUnit (fun bs h => Except.noConfusion h)).1 [0] [] rfl,
    (c5_edge_record 1 deserUnit serUnit (fun bs h => Except.noConfusion h)).2.1
      [1, 0, 1] [] 0 1 () (by decide),
    (c5_edge_record 1 deserUnit serUnit (fun bs h => Except.noConfusion h)).2.2.2 _⟩

/-- C6 counterexample: decode does NOT reject a non-empty `node_holes`
sequence.  A mirror (and a raw byte stream) with `node_holes = [0]`
decodes to `ok` with a graph, refuting the claim that such streams are
rejected. -/
theorem c6_holes_accepted :
    from_deserialized 1 false
      (⟨[⟨(), 255, 255⟩], [0], .undirected, []⟩ : BorshDeserGraph Unit Unit) =
      .ok ⟨[⟨(), 255, 255⟩], []⟩ ∧
    decodeGraph 1 false deserUnit deserUnit
      [1, 0, 0, 0, 1, 0, 0, 0, 0, 0, 0, 0, 0, 0] =
      .ok ⟨[⟨(), 255, 255⟩], []⟩ := by
  constructor <;> decide

/-- C6 amended: `from_deserialized` never inspects `node_holes` — two
mirrors differing only in `node_holes` decode identically — and the
encoder (`into_serializable`) always emits an empty `node_holes` list, so
streams produced by this variant satisfy the contract vacuously. -/
theorem c6_holes_ignored {N E : Type} (w : Nat) (dir : Bool)
    (nodes : List (Node N)) (h1 h2 : List Nat) (ep : EdgeProperty)
    (edges : List (Edge E)) (g : Graph N E) (d : Bool) :
    from_deserialized w dir ⟨nodes, h1, ep, edges⟩ =
      from_deserialized w dir ⟨nodes, h2, ep, edges⟩ ∧
    (into_serializable d g).node_holes = [] :=
  ⟨rfl, rfl⟩

/-- C1: evidence for the code bug.  On a stream whose single edge has
target endpoint 1 equal to the node count, the relinking pass itself
reports the dangling endpoint (`some 1`), yet `from_deserialized` (and
full byte-stream decode) discards that error and returns `ok` with an
unlinked graph — contradicting the claim that a DanglingEdge error
reaches the caller and no graph is returned. -/
theorem c1_dangling_not_propagated :
    (link_edges (⟨[⟨(), 255, 255⟩], [⟨(), 0, 1, 255, 255⟩]⟩ : Graph Unit Unit)).2 =
      some 1 ∧
    from_deserialized 1 false
      (⟨[⟨(), 255, 255⟩], [], .undirected, [⟨(), 0, 1, 255, 255⟩]⟩ :
        BorshDeserGraph Unit Unit) =
      .ok ⟨[⟨(), 255, 255⟩], [⟨(), 0, 1, 255, 255⟩]⟩ ∧
    decodeGraph 1 false deserUnit deserUnit
      [1, 0, 0, 0, 0, 0, 0, 0, 0, 1, 0, 0, 0, 1, 0, 1] =
      .ok ⟨[⟨(), 255, 255⟩], [⟨(), 0, 1, 255, 255⟩]⟩ := by
  refine ⟨by decide, by decide, by decide⟩

variable {N E : Type}

theorem descFilter_eq_epred (edges : List (Edge E)) (d : Bool) (v k : Nat) :
    descFilter edges d v k = ((List.range k).filter (epred edges d v)).reverse := rfl

theorem length_updNext0 (nodes : List (Node N)) (i v : Nat) :
    (updNext0 nodes i v).length = nodes.length := by
  unfold updNext0
  cases h : nodes.get? i with
  | none => rfl
  | some nd => simp [List.length_set]

theorem length_updNext1 (nodes : List (Node N)) (i v : Nat) :
    (updNext1 nodes i v).length = nodes.length := by
  unfold updNext1
  cases h : nodes.get? i with
  | none => rfl
  | some nd => simp [List.length_set]

theorem get?_updNext0 (nodes : List (Node N)) (i v j : Nat) :
    (updNext0 nodes i v).get? j =
      if j = i then (nodes.get? j).map (fun nd => ⟨nd.weight, v, nd.next1⟩)
      else nodes.get? j := by
  unfold updNext0
  cases h : nodes.get? i with
  | none =>
    by_cases hj : j = i
    · subst hj; rw [if_pos rfl, h]; rfl
    · rw [if_neg hj]
  | some nd =>
    by_cases hj : j = i
    · subst hj
      rw [if_pos rfl, h]
      have hlt : j < nodes.length := by
        by_contra hc
        push_neg at hc
        rw [List.get?_eq_none.mpr hc] at h
        exact Option.noConfusion h
      rw [List.get?_set_eq_of_lt _ hlt]
      rfl
    · rw [if_neg hj, List.get?_set_ne _ _ (fun heq => hj heq.symm)]

theorem get?_updNext1 (nodes : List (Node N)) (i v j : Nat) :
    (updNext1 nodes i v).get? j =
      if j = i then (nodes.get? j).map (fun nd => ⟨nd.weight, nd.next0, v⟩)
      else nodes.get? j := by
  unfold updNext1
  cases h : nodes.get? i with
  | none =>
    by_cases hj : j = i
    · subst hj; rw [if_pos rfl, h]; rfl
    · rw [if_neg hj]
  | some nd =>
    by_cases hj : j = i
    · subst hj
      rw [if_pos rfl, h]
      have hlt : j < nodes.length := by
        by_contra hc
        push_neg at hc
        rw [List.get?_eq_none.mpr hc] at h
        exact Option.noConfusion h
      rw [List.get?_set_eq_of_lt _ hlt]
      rfl
    · rw [if_neg hj, List.get?_set_ne _ _ (fun heq => hj heq.symm)]

theorem length_stepNodes (nodes : List (Node N)) (s t k : Nat) :
    (stepNodes nodes s t k).length = nodes.length := by
  unfold stepNodes; rw [length_updNext1, length_updNext0]

theorem get?_stepNodes (nodes : List (Node N)) (s t k j : Nat) :
    (stepNodes nodes s t k).get? j =
      (nodes.get? j).map (fun nd =>
        ⟨nd.weight, if j = s then k else nd.next0,
          if j = t then k else nd.next1⟩) := by
  unfold stepNodes
  rw [get?_updNext1, get?_updNext0]
  by_cases ht : j = t <;> by_cases hs : j = s <;>
    cases hj : nodes.get? j <;> simp_all

variable {N E : Type}

theorem chase_sent (edges : List (Edge E)) (sent : Nat) (d : Bool) (fuel : Nat)
    (h : 0 < fuel) : chase edges sent d fuel sent = some [] := by
  cases fuel with
  | zero => exact absurd h (lt_irrefl 0)
  | succ f => simp [chase]

theorem chase_congr (edges1 edges2 : List (Edge E)) (sent : Nat) (d : Bool) :
    ∀ (fuel cur : Nat) (L : List Nat),
      chase edges1 sent d fuel cur = some L →
      (∀ i ∈ L, edges2.get? i = edges1.get? i) →
      chase edges2 sent d fuel cur = some L := by
  intro fuel
  induction fuel with
  | zero => intro cur L h _; simp [chase] at h
  | succ f ih =>
    intro cur L h hag
    by_cases hc : cur = sent
    · simp only [chase, if_pos hc] at h ⊢
      exact h
    · simp only [chase, if_neg hc] at h ⊢
      cases he : edges1.get? cur with
      | none =>
        simp only [he] at h
        exact Option.noConfusion h
      | some e =>
        simp only [he] at h
        cases hch : chase edges1 sent d f (e.nextAt d) with
        | none =>
          simp only [hch] at h
          exact Option.noConfusion h
        | some L2 =>
          simp only [hch] at h
          injection h with h2
          subst h2
          have hcur : edges2.get? cur = some e := by
            rw [hag cur (List.mem_cons_self cur L2), he]
          simp only [hcur,
            ih (e.nextAt d) L2 hch (fun i hi => hag i (List.mem_cons_of_mem cur hi))]

theorem descFilter_zero (edges : List (Edge E)) (d : Bool) (v : Nat) :
    descFilter edges d v 0 = [] := rfl

theorem descFilter_succ (edges : List (Edge E)) (d : Bool) (v k : Nat) :
    descFilter edges d v (k + 1) =
      if epred edges d v k then k :: descFilter edges d v k
      else descFilter edges d v k := by
  rw [descFilter_eq_epred, descFilter_eq_epred, List.range_succ, List.filter_append]
  by_cases h : epred edges d v k
  · simp [h]
  · simp [h]

theorem descFilter_congr (edges1 edges2 : List (Edge E)) (d : Bool) (v k : Nat)
    (h : ∀ i, i < k → edges2.get? i = edges1.get? i) :
    descFilter edges2 d v k = descFilter edges1 d v k := by
  rw [descFilter_eq_epred, descFilter_eq_epred]
  congr 1
  apply List.filter_congr
  intro i hi
  unfold epred
  rw [h i (List.mem_range.mp hi)]

theorem descFilter_congr_endp (edges1 edges2 : List (Edge E)) (d : Bool) (v k : Nat)
    (h : ∀ i, (edges2.get? i).map (fun e => e.endp d) =
      (edges1.get? i).map (fun e => e.endp d)) :
    descFilter edges2 d v k = descFilter edges1 d v k := by
  rw [descFilter_eq_epred, descFilter_eq_epred]
  congr 1
  apply List.filter_congr
  intro i _
  unfold epred
  have hi := h i
  cases h1 : edges1.get? i with
  | none =>
    rw [h1] at hi
    cases h2 : edges2.get? i with
    | none => rfl
    | some e2 => rw [h2] at hi; exact Option.noConfusion hi
  | some e1 =>
    rw [h1] at hi
    cases h2 : edges2.get? i with
    | none => rw [h2] at hi; exact Option.noConfusion hi
    | some e2 =>
      rw [h2] at hi
      injection hi with hi2
      have hi3 : e2.endp d = e1.endp d := hi2
      simp only [hi3]

theorem descFilter_mem (edges : List (Edge E)) (d : Bool) (v k i : Nat) :
    i ∈ descFilter edges d v k ↔
      i < k ∧ ∃ e, edges.get? i = some e ∧ e.endp d = v := by
  rw [descFilter_eq_epred, List.mem_reverse, List.mem_filter, List.mem_range]
  constructor
  · rintro ⟨hik, hp⟩
    refine ⟨hik, ?_⟩
    unfold epred at hp
    cases h1 : edges.get? i with
    | none => rw [h1] at hp; exact Bool.noConfusion hp
    | some e =>
      rw [h1] at hp
      exact ⟨e, rfl, by simpa using hp⟩
  · rintro ⟨hik, e, he, hv⟩
    refine ⟨hik, ?_⟩
    unfold epred
    rw [he]
    simp [hv]

theorem descFilter_mem_lt (edges : List (Edge E)) (d : Bool) (v k i : Nat)
    (h : i ∈ descFilter edges d v k) : i < k :=
  ((descFilter_mem edges d v k i).mp h).1

variable {N E : Type}

theorem get?_some_lt {α : Type} {l : List α} {i : Nat} {a : α}
    (h : l.get? i = some a) : i < l.length := by
  by_contra hc
  push_neg at hc
  rw [List.get?_eq_none.mpr hc] at h
  exact Option.noConfusion h

theorem stepEdge_endp (e : Edge E) (ns nt : Node N) (d : Bool) :
    (stepEdge e ns nt).endp d = e.endp d := by cases d <;> rfl

theorem stepInv (nodes : List (Node N)) (edges : List (Edge E)) (sent k : Nat)
    (e : Edge E) (ns nt : Node N)
    (hke : edges.get? k = some e)
    (hns : nodes.get? e.source = some ns)
    (hnt : nodes.get? e.target = some nt)
    (hksent : k < sent)
    (hinv : ∀ v nd (d : Bool), nodes.get? v = some nd → ∀ f2, k < f2 →
      chase edges sent d f2 (nd.headAt d) = some (descFilter edges d v k)) :
    ∀ v nd (d : Bool), (stepNodes nodes e.source e.target k).get? v = some nd →
      ∀ f2, k + 1 < f2 →
      chase (edges.set k (stepEdge e ns nt)) sent d f2 (nd.headAt d) =
        some (descFilter (edges.set k (stepEdge e ns nt)) d v (k + 1)) := by
  have hklen : k < edges.length := get?_some_lt hke
  have hegetk : (edges.set k (stepEdge e ns nt)).get? k = some (stepEdge e ns nt) :=
    List.get?_set_eq_of_lt _ hklen
  have hagree : ∀ i, i < k → (edges.set k (stepEdge e ns nt)).get? i = edges.get? i :=
    fun i hi => List.get?_set_ne _ _ (by omega)
  intro v nd' d hv' f2 hf2
  rw [get?_stepNodes] at hv'
  cases hv0 : nodes.get? v with
  | none => rw [hv0] at hv'; exact Option.noConfusion hv'
  | some nd =>
    rw [hv0] at hv'
    simp only [Option.map_some'] at hv'
    injection hv' with hnd'
    subst hnd'
    have hhead : (⟨nd.weight, if v = e.source then k else nd.next0,
        if v = e.target then k else nd.next1⟩ : Node N).headAt d =
        if v = e.endp d then k else nd.headAt d := by
      cases d <;> simp [Node.headAt, Edge.endp]
    rw [hhead]
    by_cases hvep : v = e.endp d
    · rw [if_pos hvep]
      cases f2 with
      | zero => omega
      | succ f3 =>
        have hkne : k ≠ sent := Nat.ne_of_lt hksent
        have hch := hinv v nd d hv0 f3 (by omega)
        have hch' : chase (edges.set k (stepEdge e ns nt)) sent d f3 (nd.headAt d) =
            some (descFilter edges d v k) :=
          chase_congr edges _ sent d f3 _ _ hch (fun i hi =>
            hagree i (descFilter_mem_lt edges d v k i hi))
        have hnext : (stepEdge e ns nt).nextAt d = nd.headAt d := by
          cases d with
          | false =>
            have hv0' : nodes.get? e.source = some nd := by
              rw [← show e.endp false = e.source from rfl, ← hvep]
              exact hv0
            have hnd : nd = ns := Option.some.inj (hv0'.symm.trans hns)
            rw [hnd]; rfl
          | true =>
            have hv0' : nodes.get? e.target = some nd := by
              rw [← show e.endp true = e.target from rfl, ← hvep]
              exact hv0
            have hnd : nd = nt := Option.some.inj (hv0'.symm.trans hnt)
            rw [hnd]; rfl
        simp only [chase, if_neg hkne, hegetk, hnext, hch']
        rw [descFilter_succ]
        have hpred : epred (edges.set k (stepEdge e ns nt)) d v k = true := by
          unfold epred
          rw [hegetk]
          simp only [stepEdge_endp]
          rw [← hvep]
          simp
        rw [hpred]
        rw [descFilter_congr edges (edges.set k (stepEdge e ns nt)) d v k hagree]
        simp
    · rw [if_neg hvep]
      have hch := hinv v nd d hv0 f2 (by omega)
      have hch' : chase (edges.set k (stepEdge e ns nt)) sent d f2 (nd.headAt d) =
          some (descFilter edges d v k) :=
        chase_congr edges _ sent d f2 _ _ hch (fun i hi =>
          hagree i (descFilter_mem_lt edges d v k i hi))
      rw [hch', descFilter_succ]
      have hpred : epred (edges.set k (stepEdge e ns nt)) d v k = false := by
        unfold epred
        rw [hegetk]
        simp only [stepEdge_endp]
        simp
        exact fun hc => hvep hc.symm
      rw [hpred]
      rw [descFilter_congr edges (edges.set k (stepEdge e ns nt)) d v k hagree]
      simp

variable {N E : Type}

theorem linkAux_spec (sent : Nat) :
    ∀ (fuel : Nat) (nodes : List (Node N)) (edges : List (Edge E)) (k : Nat),
    edges.length ≤ fuel + k →
    k ≤ edges.length →
    edges.length ≤ sent →
    (∀ i e, edges.get? i = some e → k ≤ i →
      e.source < nodes.length ∧ e.target < nodes.length) →
    (∀ v nd (d : Bool), nodes.get? v = some nd → ∀ f2, k < f2 →
      chase edges sent d f2 (nd.headAt d) = some (descFilter edges d v k)) →
    (linkAux fuel nodes edges k).2.2 = none ∧
    (linkAux fuel nodes edges k).1.length = nodes.length ∧
    (linkAux fuel nodes edges k).2.1.length = edges.length ∧
    (∀ j, ((linkAux fuel nodes edges k).1.get? j).map Node.weight =
      (nodes.get? j).map Node.weight) ∧
    (∀ j, ((linkAux fuel nodes edges k).2.1.get? j).map edgeObs =
      (edges.get? j).map edgeObs) ∧
    (∀ v nd (d : Bool), (linkAux fuel nodes edges k).1.get? v = some nd →
      ∀ f2, edges.length < f2 →
      chase (linkAux fuel nodes edges k).2.1 sent d f2 (nd.headAt d) =
        some (descFilter edges d v edges.length)) := by
  intro fuel
  induction fuel with
  | zero =>
    intro nodes edges k hfuel hk _ _ hinv
    have hkeq : k = edges.length := by omega
    refine ⟨rfl, rfl, rfl, fun j => rfl, fun j => rfl, ?_⟩
    intro v nd d hv f2 hf2
    have h2 := hinv v nd d hv f2 (by omega)
    rwa [hkeq] at h2
  | succ f ih =>
    intro nodes edges k hfuel hk hsent hval hinv
    cases hke : edges.get? k with
    | none =>
      have hlen : edges.length ≤ k := List.get?_eq_none.mp hke
      have hkeq : k = edges.length := by omega
      have hred0 : linkAux (f + 1) nodes edges k = (nodes, edges, none) := by
        simp only [linkAux, hke]
      rw [hred0]
      refine ⟨rfl, rfl, rfl, fun j => rfl, fun j => rfl, ?_⟩
      intro v nd d hv f2 hf2
      have h2 := hinv v nd d hv f2 (by omega)
      rwa [hkeq] at h2
    | some e =>
      obtain ⟨hs, ht⟩ := hval k e hke le_rfl
      obtain ⟨ns, hns⟩ : ∃ ns, nodes.get? e.source = some ns :=
        ⟨_, List.get?_eq_get hs⟩
      obtain ⟨nt, hnt⟩ : ∃ nt, nodes.get? e.target = some nt :=
        ⟨_, List.get?_eq_get ht⟩
      have hklen : k < edges.length := get?_some_lt hke
      have hred : linkAux (f + 1) nodes edges k =
          linkAux f (stepNodes nodes e.source e.target k)
            (edges.set k (stepEdge e ns nt)) (k + 1) := by
        simp only [linkAux, hke, hns, hnt]
        rfl
      have hlen' : (edges.set k (stepEdge e ns nt)).length = edges.length := by
        simp [List.length_set]
      have hnlen' : (stepNodes nodes e.source e.target k).length = nodes.length :=
        length_stepNodes nodes e.source e.target k
      have hagree : ∀ i, i ≠ k →
          (edges.set k (stepEdge e ns nt)).get? i = edges.get? i :=
        fun i hi => List.get?_set_ne _ _ (fun hc => hi hc.symm)
      have hegetk : (edges.set k (stepEdge e ns nt)).get? k = some (stepEdge e ns nt) :=
        List.get?_set_eq_of_lt _ hklen
      have hendp : ∀ (d : Bool) i,
          ((edges.set k (stepEdge e ns nt)).get? i).map (fun e2 => e2.endp d) =
            (edges.get? i).map (fun e2 => e2.endp d) := by
        intro d i
        by_cases hik : i = k
        · subst hik
          rw [hegetk, hke]
          simp only [Option.map_some', stepEdge_endp]
        · rw [hagree i hik]
      have hval' : ∀ i e2, (edges.set k (stepEdge e ns nt)).get? i = some e2 →
          k + 1 ≤ i →
          e2.source < (stepNodes nodes e.source e.target k).length ∧
          e2.target < (stepNodes nodes e.source e.target k).length := by
        intro i e2 hi hki
        rw [hagree i (by omega)] at hi
        rw [hnlen']
        exact hval i e2 hi (by omega)
      have hinv' := stepInv nodes edges sent k e ns nt hke hns hnt
        (by omega) hinv
      have hmain := ih (stepNodes nodes e.source e.target k)
        (edges.set k (stepEdge e ns nt)) (k + 1)
        (by rw [hlen']; omega) (by rw [hlen']; omega) (by rw [hlen']; exact hsent)
        hval' hinv'
      obtain ⟨o1, o2, o3, o4, o5, o6⟩ := hmain
      rw [hred]
      refine ⟨o1, ?_, ?_, ?_, ?_, ?_⟩
      · rw [o2, hnlen']
      · rw [o3, hlen']
      · intro j
        rw [o4 j, get?_stepNodes]
        cases nodes.get? j <;> rfl
      · intro j
        rw [o5 j]
        by_cases hj : j = k
        · subst hj
          rw [hegetk, hke]
          rfl
        · rw [hagree j hj]
      · intro v nd d hv f2 hf2
        have h6 := o6 v nd d hv f2 (by rw [hlen']; omega)
        rw [hlen'] at h6
        rwa [descFilter_congr_endp edges (edges.set k (stepEdge e ns nt)) d v
          edges.length (hendp d)] at h6

variable {N E : Type}

theorem deserNodeIndex_ser (w i : Nat) (hi : i < 256 ^ w) (r : List Nat) :
    deserNodeIndex w (serUInt w i ++ r) = .ok (i, r) := by
  simp [deserNodeIndex, deserUInt_serUInt, Nat.mod_eq_of_lt hi, tryFromIx, hi]

theorem foldr_append_init (enc : α → List Nat) (xs : List α) (r : List Nat) :
    xs.foldr (fun x acc => enc x ++ acc) [] ++ r =
      xs.foldr (fun x acc => enc x ++ acc) r := by
  induction xs with
  | nil => rfl
  | cons x xs ih => simp only [List.foldr_cons, List.append_assoc, ih]

theorem deserElems_roundtrip {α β : Type}
    (dec : List Nat → Except DErr (β × List Nat)) (enc : α → List Nat)
    (f : α → β) (xs : List α)
    (h : ∀ x ∈ xs, ∀ rest, dec (enc x ++ rest) = .ok (f x, rest)) :
    ∀ r, deserElems dec xs.length (xs.foldr (fun x acc => enc x ++ acc) r) =
      .ok (xs.map f, r) := by
  induction xs with
  | nil => intro r; rfl
  | cons x xs ih =>
    intro r
    show deserElems dec (xs.length + 1)
      (enc x ++ xs.foldr (fun x acc => enc x ++ acc) r) = _
    simp only [deserElems, h x (List.mem_cons_self x xs),
      ih (fun y hy rest => h y (List.mem_cons_of_mem x hy) rest)]
    rfl

theorem deserVec_roundtrip {α β : Type}
    (dec : List Nat → Except DErr (β × List Nat)) (enc : α → List Nat)
    (f : α → β) (xs : List α) (hlen : xs.length < 256 ^ 4)
    (h : ∀ x ∈ xs, ∀ rest, dec (enc x ++ rest) = .ok (f x, rest)) :
    ∀ r, deserVec dec (serVec enc xs ++ r) = .ok (xs.map f, r) := by
  intro r
  unfold serVec deserVec
  rw [List.append_assoc, foldr_append_init]
  simp only [deserUInt_serUInt, Nat.mod_eq_of_lt hlen,
    deserElems_roundtrip dec enc f xs h r]

theorem deserNode_serNode (w : Nat)
    (decN : List Nat → Except DErr (N × List Nat)) (encN : N → List Nat)
    (hN : ∀ x rest, decN (encN x ++ rest) = .ok (x, rest)) (nd : Node N)
    (rest : List Nat) :
    deserNode w decN (serNode encN nd ++ rest) =
      .ok (⟨nd.weight, sentinel w, sentinel w⟩, rest) := by
  unfold deserNode serNode
  simp only [hN nd.weight rest]

theorem deserEdge_serEdge (w : Nat)
    (decE : List Nat → Except DErr (E × List Nat)) (encE : E → List Nat)
    (hE : ∀ x rest, decE (encE x ++ rest) = .ok (x, rest)) (e : Edge E)
    (hs : e.source < 256 ^ w) (ht : e.target < 256 ^ w) (rest : List Nat) :
    deserEdge w decE (serEdge w encE e ++ rest) =
      .ok (⟨e.weight, e.source, e.target, sentinel w, sentinel w⟩, rest) := by
  show deserEdge w decE
    (1 :: ((serNodeIndex w e.source ++ serNodeIndex w e.target ++ encE e.weight)
      ++ rest)) = _
  unfold deserEdge deserOptTriple serNodeIndex
  rw [List.append_assoc, List.append_assoc]
  simp only [deserNodeIndex_ser w e.source hs, deserNodeIndex_ser w e.target ht,
    hE e.weight rest]

theorem deserEdgeProperty_ser (ep : EdgeProperty) (r : List Nat) :
    deserEdgeProperty (serEdgeProperty ep ++ r) = .ok (ep, r) := by
  cases ep <;> rfl

theorem deserMirror_serMirror (w : Nat)
    (decN : List Nat → Except DErr (N × List Nat)) (encN : N → List Nat)
    (decE : List Nat → Except DErr (E × List Nat)) (encE : E → List Nat)
    (m : BorshSerGraph N E)
    (hN : ∀ x rest, decN (encN x ++ rest) = .ok (x, rest))
    (hE : ∀ x rest, decE (encE x ++ rest) = .ok (x, rest))
    (hholes : m.node_holes = [])
    (hnlen : m.nodes.length < 256 ^ 4) (helen : m.edges.length < 256 ^ 4)
    (hend : ∀ e ∈ m.edges, e.source < 256 ^ w ∧ e.target < 256 ^ w) :
    ∀ r, deserMirror w decN decE (serMirror w encN encE m ++ r) =
      .ok (⟨m.nodes.map (fun nd => ⟨nd.weight, sentinel w, sentinel w⟩), [],
        m.edge_property,
        m.edges.map (fun e =>
          ⟨e.weight, e.source, e.target, sentinel w, sentinel w⟩)⟩, r) := by
  intro r
  unfold serMirror deserMirror
  rw [hholes, List.append_assoc, List.append_assoc, List.append_assoc]
  simp only [deserVec_roundtrip (deserNode w decN) (serNode encN)
      (fun nd => ⟨nd.weight, sentinel w, sentinel w⟩) m.nodes hnlen
      (fun nd _ rest => deserNode_serNode w decN encN hN nd rest),
    deserVec_roundtrip (deserNodeIndex w) (serNodeIndex w) id []
      (by norm_num) (fun i hi => absurd hi (List.not_mem_nil i)),
    deserEdgeProperty_ser,
    deserVec_roundtrip (deserEdge w decE) (serEdge w encE)
      (fun e => ⟨e.weight, e.source, e.target, sentinel w, sentinel w⟩) m.edges helen
      (fun e he rest =>
        deserEdge_serEdge w decE encE hE e (hend e he).1 (hend e he).2 rest)]
  rfl

variable {N E : Type}

theorem link_edges_ok (sent : Nat) (g : Graph N E)
    (hsent : g.edges.length ≤ sent)
    (hval : ∀ i e, g.edges.get? i = some e →
      e.source < g.nodes.length ∧ e.target < g.nodes.length)
    (hheads : ∀ v nd, g.nodes.get? v = some nd →
      nd.next0 = sent ∧ nd.next1 = sent) :
    (link_edges g).2 = none ∧
    (link_edges g).1.nodes.length = g.nodes.length ∧
    (link_edges g).1.edges.length = g.edges.length ∧
    (∀ j, ((link_edges g).1.nodes.get? j).map Node.weight =
      (g.nodes.get? j).map Node.weight) ∧
    (∀ j, ((link_edges g).1.edges.get? j).map edgeObs =
      (g.edges.get? j).map edgeObs) ∧
    (∀ v nd (d : Bool), (link_edges g).1.nodes.get? v = some nd →
      ∀ f2, g.edges.length < f2 →
      chase (link_edges g).1.edges sent d f2 (nd.headAt d) =
        some (descFilter g.edges d v g.edges.length)) := by
  have h := linkAux_spec sent g.edges.length g.nodes g.edges 0 (by omega)
    (by omega) hsent (fun i e hi _ => hval i e hi)
    (by
      intro v nd d hv f2 hf2
      obtain ⟨h0, h1⟩ := hheads v nd hv
      have hhead : nd.headAt d = sent := by
        cases d <;> simp [Node.headAt, h0, h1]
      rw [hhead, descFilter_zero]
      exact chase_sent _ _ _ _ (by omega))
  exact h

theorem from_deserialized_ok_inv (w : Nat) (dir : Bool)
    (m : BorshDeserGraph N E) (g : Graph N E)
    (h : from_deserialized w dir m = .ok g) :
    m.edge_property.is_directed = dir ∧ m.nodes.length < IxMax w ∧
    m.edges.length < IxMax w ∧ g = (link_edges ⟨m.nodes, m.edges⟩).1 := by
  unfold from_deserialized phantom_from_deserialized at h
  by_cases h1 : m.edge_property.is_directed = dir
  · simp only [h1, ne_eq, not_true_eq_false, if_false] at h
    by_cases h2 : IxMax w ≤ m.nodes.length
    · rw [if_pos h2] at h; exact Except.noConfusion h
    · rw [if_neg h2] at h
      by_cases h3 : IxMax w ≤ m.edges.length
      · rw [if_pos h3] at h; exact Except.noConfusion h
      · rw [if_neg h3] at h
        injection h with h4
        exact ⟨h1, by omega, by omega, h4.symm⟩
  · simp only [ne_eq, h1, not_false_eq_true, if_true] at h
    exact Except.noConfusion h

theorem deserNode_sent (w : Nat) (decN : List Nat → Except DErr (N × List Nat))
    (bs : List Nat) (nd : Node N) (r : List Nat)
    (h : deserNode w decN bs = .ok (nd, r)) :
    nd.next0 = sentinel w ∧ nd.next1 = sentinel w := by
  unfold deserNode at h
  cases hd : decN bs with
  | error e => rw [hd] at h; exact Except.noConfusion h
  | ok p =>
    obtain ⟨wt, r2⟩ := p
    simp only [hd] at h
    injection h with h2
    injection h2 with h3 h4
    rw [← h3]
    exact ⟨rfl, rfl⟩

theorem deserElems_nodes_sent (w : Nat)
    (decN : List Nat → Except DErr (N × List Nat)) :
    ∀ (n : Nat) (bs : List Nat) (nds : List (Node N)) (r : List Nat),
      deserElems (deserNode w decN) n bs = .ok (nds, r) →
      ∀ nd ∈ nds, nd.next0 = sentinel w ∧ nd.next1 = sentinel w := by
  intro n
  induction n with
  | zero =>
    intro bs nds r h nd hmem
    unfold deserElems at h
    injection h with h2
    injection h2 with h3 h4
    rw [← h3] at hmem
    exact absurd hmem (List.not_mem_nil nd)
  | succ n ih =>
    intro bs nds r h nd hmem
    unfold deserElems at h
    cases h1 : deserNode w decN bs with
    | error e => rw [h1] at h; exact Except.noConfusion h
    | ok p =>
      obtain ⟨a, r1⟩ := p
      simp only [h1] at h
      cases h2 : deserElems (deserNode w decN) n r1 with
      | error e => rw [h2] at h; exact Except.noConfusion h
      | ok p2 =>
        obtain ⟨as2, r2⟩ := p2
        simp only [h2] at h
        injection h with h3
        injection h3 with h4 h5
        rw [← h4] at hmem
        rcases List.mem_cons.mp hmem with hnd | hnd
        · rw [hnd]; exact deserNode_sent w decN bs a r1 h1
        · exact ih r1 as2 r2 h2 nd hnd

theorem deserMirror_nodes_sent (w : Nat)
    (decN : List Nat → Except DErr (N × List Nat))
    (decE : List Nat → Except DErr (E × List Nat))
    (bs : List Nat) (m : BorshDeserGraph N E) (r : List Nat)
    (h : deserMirror w decN decE bs = .ok (m, r)) :
    ∀ nd ∈ m.nodes, nd.next0 = sentinel w ∧ nd.next1 = sentinel w := by
  unfold deserMirror at h
  cases h1 : deserVec (deserNode w decN) bs with
  | error e => rw [h1] at h; exact Except.noConfusion h
  | ok p =>
    obtain ⟨nds, r1⟩ := p
    simp only [h1] at h
    cases h2 : deserVec (deserNodeIndex w) r1 with
    | error e => rw [h2] at h; exact Except.noConfusion h
    | ok p2 =>
      obtain ⟨holes, r2⟩ := p2
      simp only [h2] at h
      cases h3 : deserEdgeProperty r2 with
      | error e => rw [h3] at h; exact Except.noConfusion h
      | ok p3 =>
        obtain ⟨ep, r3⟩ := p3
        simp only [h3] at h
        cases h4 : deserVec (deserEdge w decE) r3 with
        | error e => rw [h4] at h; exact Except.noConfusion h
        | ok p4 =>
          obtain ⟨eds, r4⟩ := p4
          simp only [h4] at h
          injection h with h5
          injection h5 with h6 h7
          unfold deserVec at h1
          cases h8 : deserUInt 4 bs with
          | error e => rw [h8] at h1; exact Except.noConfusion h1
          | ok p5 =>
            obtain ⟨n, r5⟩ := p5
            simp only [h8] at h1
            intro nd hmem
            rw [← h6] at hmem
            exact deserElems_nodes_sent w decN n r5 nds r1 h1 nd hmem

variable {N E : Type}

/-- C8 amended: for every byte stream that parses to a mirror, decodes
successfully, and whose parsed edges all have valid endpoints (the
hypothesis the silent-ignore bug makes necessary), following "next"
pointers from each decoded node's direction-`d` head reaches the sentinel
within `edges.length + 1` steps and visits exactly the set of edge
indices whose direction-`d` endpoint (source for outgoing, target for
incoming) is that node. -/
theorem c8_relink_exact (w : Nat) (dir : Bool)
    (decN : List Nat → Except DErr (N × List Nat))
    (decE : List Nat → Except DErr (E × List Nat))
    (bs : List Nat) (m : BorshDeserGraph N E) (r : List Nat) (g : Graph N E)
    (hparse : deserMirror w decN decE bs = .ok (m, r))
    (hdecode : from_deserialized w dir m = .ok g)
    (hval : ∀ e ∈ m.edges, e.source < m.nodes.length ∧ e.target < m.nodes.length) :
    ∀ v nd (d : Bool), g.nodes.get? v = some nd →
      ∃ L, chase g.edges (sentinel w) d (m.edges.length + 1) (nd.headAt d) = some L ∧
        ∀ i, i ∈ L ↔ ∃ e, m.edges.get? i = some e ∧ e.endp d = v := by
  obtain ⟨hdir, hn, he, hg⟩ := from_deserialized_ok_inv w dir m g hdecode
  have hheads : ∀ v nd,
      (⟨m.nodes, m.edges⟩ : Graph N E).nodes.get? v = some nd →
      nd.next0 = sentinel w ∧ nd.next1 = sentinel w :=
    fun v nd hv =>
      deserMirror_nodes_sent w decN decE bs m r hparse nd (List.get?_mem hv)
  obtain ⟨-, -, -, -, -, hchase⟩ := link_edges_ok (sentinel w) ⟨m.nodes, m.edges⟩
    (le_of_lt he) (fun i e hi => hval e (List.get?_mem hi)) hheads
  intro v nd d hv
  subst hg
  refine ⟨descFilter m.edges d v m.edges.length,
    hchase v nd d hv (m.edges.length + 1) (Nat.lt_succ_self m.edges.length), ?_⟩
  intro i
  rw [descFilter_mem]
  constructor
  · rintro ⟨-, e, hie, hvv⟩
    exact ⟨e, hie, hvv⟩
  · rintro ⟨e, hie, hvv⟩
    exact ⟨get?_some_lt hie, e, hie, hvv⟩

/-- Witness for C8 amended: a concrete two-node one-edge stream. -/
theorem c8_witness :
    (deserMirror 1 deserUnit deserUnit
        [2, 0, 0, 0, 0, 0, 0, 0, 0, 1, 0, 0, 0, 1, 0, 1] =
      .ok ((⟨[⟨(), 255, 255⟩, ⟨(), 255, 255⟩], [], .undirected,
        [⟨(), 0, 1, 255, 255⟩]⟩ : BorshDeserGraph Unit Unit), []) ∧
     from_deserialized 1 false
        (⟨[⟨(), 255, 255⟩, ⟨(), 255, 255⟩], [], .undirected,
          [⟨(), 0, 1, 255, 255⟩]⟩ : BorshDeserGraph Unit Unit) =
      .ok ⟨[⟨(), 0, 255⟩, ⟨(), 255, 0⟩], [⟨(), 0, 1, 255, 255⟩]⟩) ∧
    (∀ v nd (d : Bool),
      (⟨[⟨(), 0, 255⟩, ⟨(), 255, 0⟩], [⟨(), 0, 1, 255, 255⟩]⟩ :
        Graph Unit Unit).nodes.get? v = some nd →
      ∃ L, chase (⟨[⟨(), 0, 255⟩, ⟨(), 255, 0⟩], [⟨(), 0, 1, 255, 255⟩]⟩ :
          Graph Unit Unit).edges (sentinel 1) d
        (([⟨(), 0, 1, 255, 255⟩] : List (Edge Unit)).length + 1) (nd.headAt d) = some L ∧
        ∀ i, i ∈ L ↔ ∃ e, ([⟨(), 0, 1, 255, 255⟩] : List (Edge Unit)).get? i = some e ∧
          e.endp d = v) :=
  ⟨⟨by decide, by decide⟩,
   c8_relink_exact 1 false deserUnit deserUnit
     [2, 0, 0, 0, 0, 0, 0, 0, 0, 1, 0, 0, 0, 1, 0, 1]
     ⟨[⟨(), 255, 255⟩, ⟨(), 255, 255⟩], [], .undirected, [⟨(), 0, 1, 255, 255⟩]⟩
     [] ⟨[⟨(), 0, 255⟩, ⟨(), 255, 0⟩], [⟨(), 0, 1, 255, 255⟩]⟩
     (by decide) (by decide) (by decide)⟩

/-- C8 counterexample: a successfully decoded mirror containing a
dangling edge (target 1, node count 1).  Decode returns `ok`, the
outgoing chain of node 0 visits no edges, yet edge 0 has source 0 — the
chain does not visit exactly the edges sourced at node 0, refuting the
claim for arbitrary successfully decoded graphs. -/
theorem c8_counterexample :
    from_deserialized 1 false
      (⟨[⟨(), 255, 255⟩], [], .undirected, [⟨(), 0, 1, 255, 255⟩]⟩ :
        BorshDeserGraph Unit Unit) =
      .ok ⟨[⟨(), 255, 255⟩], [⟨(), 0, 1, 255, 255⟩]⟩ ∧
    chase ([⟨(), 0, 1, 255, 255⟩] : List (Edge Unit)) (sentinel 1) false 2
      ((⟨(), 255, 255⟩ : Node Unit).headAt false) = some [] ∧
    (([⟨(), 0, 1, 255, 255⟩] : List (Edge Unit)).get? 0).map
      (fun e => e.endp false) = some 0 ∧
    ¬ (0 ∈ ([] : List Nat)) :=
  ⟨by decide, by decide, by decide, by decide⟩

variable {N E : Type}

/-- C2: round-trip.  For a well-formed graph (node and edge counts below
the index maximum and below the `u32` sequence-length bound, all edge
endpoints valid) and faithful weight codecs, decoding the encoding
succeeds and yields a graph with the same node count, edge count,
node-weight sequence, edge-weight sequence, and (source, target) pair at
every edge index, and whose rebuilt adjacency chains visit, for every
node and direction, exactly the incident edge set of the original graph. -/
theorem c2_roundtrip (w : Nat) (dir : Bool)
    (encN : N → List Nat) (decN : List Nat → Except DErr (N × List Nat))
    (encE : E → List Nat) (decE : List Nat → Except DErr (E × List Nat))
    (g : Graph N E)
    (hN : ∀ x rest, decN (encN x ++ rest) = .ok (x, rest))
    (hE : ∀ x rest, decE (encE x ++ rest) = .ok (x, rest))
    (hn : g.nodes.length < IxMax w) (he : g.edges.length < IxMax w)
    (hn32 : g.nodes.length < 256 ^ 4) (he32 : g.edges.length < 256 ^ 4)
    (hval : ∀ e ∈ g.edges, e.source < g.nodes.length ∧ e.target < g.nodes.length) :
    ∃ g2, decodeGraph w dir decN decE (serGraph w dir encN encE g) = .ok g2 ∧
      g2.nodes.length = g.nodes.length ∧
      g2.edges.length = g.edges.length ∧
      g2.nodes.map Node.weight = g.nodes.map Node.weight ∧
      g2.edges.map Edge.weight = g.edges.map Edge.weight ∧
      (∀ i, (g2.edges.get? i).map (fun e => (e.source, e.target)) =
        (g.edges.get? i).map (fun e => (e.source, e.target))) ∧
      (∀ v nd (d : Bool), g2.nodes.get? v = some nd →
        ∃ L, chase g2.edges (sentinel w) d (g.edges.length + 1) (nd.headAt d) =
          some L ∧
          ∀ i, i ∈ L ↔ ∃ e, g.edges.get? i = some e ∧ e.endp d = v) := by
  have hpow : 0 < 256 ^ w := pow_pos (by norm_num) w
  have hIxlt : IxMax w < 256 ^ w := by
    unfold IxMax
    omega
  have hend : ∀ e ∈ g.edges, e.source < 256 ^ w ∧ e.target < 256 ^ w := by
    intro e heg
    obtain ⟨h1, h2⟩ := hval e heg
    exact ⟨by omega, by omega⟩
  have hm := deserMirror_serMirror w decN encN decE encE (into_serializable dir g)
    hN hE rfl hn32 he32 hend []
  rw [List.append_nil] at hm
  set mnodes := g.nodes.map
    (fun nd => (⟨nd.weight, sentinel w, sentinel w⟩ : Node N)) with hmn
  set medges := g.edges.map
    (fun e => (⟨e.weight, e.source, e.target, sentinel w, sentinel w⟩ : Edge E))
    with hme
  have hm' : deserMirror w decN decE (serGraph w dir encN encE g) =
      .ok ((⟨mnodes, [], edgePropertyOf dir, medges⟩ : BorshDeserGraph N E), []) :=
    hm
  have hdirb : (edgePropertyOf dir).is_directed = dir := by cases dir <;> rfl
  have hmnlen : mnodes.length = g.nodes.length := by
    rw [hmn, List.length_map]
  have hmelen : medges.length = g.edges.length := by
    rw [hme, List.length_map]
  have hval' : ∀ i e, medges.get? i = some e →
      e.source < mnodes.length ∧ e.target < mnodes.length := by
    intro i e hi
    rw [hme, List.get?_map] at hi
    cases hgi : g.edges.get? i with
    | none => rw [hgi] at hi; exact Option.noConfusion hi
    | some e0 =>
      rw [hgi] at hi
      simp only [Option.map_some'] at hi
      injection hi with hi2
      obtain ⟨h1, h2⟩ := hval e0 (List.get?_mem hgi)
      rw [← hi2, hmnlen]
      exact ⟨h1, h2⟩
  have hheads' : ∀ v nd, mnodes.get? v = some nd →
      nd.next0 = sentinel w ∧ nd.next1 = sentinel w := by
    intro v nd hv
    rw [hmn, List.get?_map] at hv
    cases hgv : g.nodes.get? v with
    | none => rw [hgv] at hv; exact Option.noConfusion hv
    | some nd0 =>
      rw [hgv] at hv
      simp only [Option.map_some'] at hv
      injection hv with hv2
      rw [← hv2]
      exact ⟨rfl, rfl⟩
  obtain ⟨hlnone, hlnlen, hlelen, hlw, hlobs, hlchase⟩ :=
    link_edges_ok (sentinel w) ⟨mnodes, medges⟩ (by rw [hmelen]; exact le_of_lt he)
      hval' hheads'
  have hwkey : ∀ i,
      ((link_edges (⟨mnodes, medges⟩ : Graph N E)).1.nodes.get? i).map Node.weight =
        (g.nodes.get? i).map Node.weight := by
    intro i
    rw [hlw i, hmn, List.get?_map, Option.map_map]
    cases g.nodes.get? i <;> rfl
  have hkey : ∀ i,
      ((link_edges (⟨mnodes, medges⟩ : Graph N E)).1.edges.get? i).map edgeObs =
        (g.edges.get? i).map edgeObs := by
    intro i
    rw [hlobs i, hme, List.get?_map, Option.map_map]
    cases g.edges.get? i <;> rfl
  have hendkey : ∀ (d : Bool) i,
      (medges.get? i).map (fun e => e.endp d) =
        (g.edges.get? i).map (fun e => e.endp d) := by
    intro d i
    rw [hme, List.get?_map, Option.map_map]
    cases hgi : g.edges.get? i with
    | none => rfl
    | some e0 => cases d <;> rfl
  refine ⟨(link_edges (⟨mnodes, medges⟩ : Graph N E)).1, ?_, ?_, ?_, ?_, ?_, ?_, ?_⟩
  · unfold decodeGraph
    rw [hm']
    show from_deserialized w dir ⟨mnodes, [], edgePropertyOf dir, medges⟩ = _
    unfold from_deserialized phantom_from_deserialized
    rw [if_neg (by simp [hdirb])]
    rw [if_neg (by rw [hmnlen]; omega)]
    rw [if_neg (by rw [hmelen]; omega)]
  · rw [hlnlen, hmnlen]
  · rw [hlelen, hmelen]
  · apply List.ext
    intro i
    rw [List.get?_map, List.get?_map]
    exact hwkey i
  · apply List.ext
    intro i
    rw [List.get?_map, List.get?_map]
    have h5 := congrArg (Option.map (fun p : E × Nat × Nat => p.1)) (hkey i)
    rw [Option.map_map, Option.map_map] at h5
    exact h5
  · intro i
    have h6 := congrArg (Option.map (fun p : E × Nat × Nat => p.2)) (hkey i)
    rw [Option.map_map, Option.map_map] at h6
    exact h6
  · intro v nd d hv
    have hch := hlchase v nd d hv (g.edges.length + 1)
      (by rw [hmelen]; exact Nat.lt_succ_self _)
    have hdf : descFilter medges d v medges.length =
        descFilter g.edges d v g.edges.length := by
      rw [hmelen]
      exact descFilter_congr_endp g.edges medges d v g.edges.length
        (fun i => hendkey d i)
    rw [hdf] at hch
    refine ⟨_, hch, ?_⟩
    intro i
    rw [descFilter_mem]
    constructor
    · rintro ⟨-, e, hie, hvv⟩
      exact ⟨e, hie, hvv⟩
    · rintro ⟨e, hie, hvv⟩
      exact ⟨get?_some_lt hie, e, hie, hvv⟩

theorem c2_witness :
    ((∀ (x : Unit) (rest : List Nat), deserUnit (serUnit x ++ rest) = .ok (x, rest)) ∧
     ([⟨(), 9, 9⟩, ⟨(), 3, 4⟩] : List (Node Unit)).length < IxMax 4 ∧
     ([⟨(), 0, 1, 5, 6⟩, ⟨(), 1, 0, 7, 8⟩] : List (Edge Unit)).length < IxMax 4 ∧
     (∀ e ∈ ([⟨(), 0, 1, 5, 6⟩, ⟨(), 1, 0, 7, 8⟩] : List (Edge Unit)),
       e.source < 2 ∧ e.target < 2)) ∧
    (∃ g2, decodeGraph 4 true deserUnit deserUnit
        (serGraph 4 true serUnit serUnit
          (⟨[⟨(), 9, 9⟩, ⟨(), 3, 4⟩], [⟨(), 0, 1, 5, 6⟩, ⟨(), 1, 0, 7, 8⟩]⟩ :
            Graph Unit Unit)) = .ok g2 ∧
      g2.nodes.length = ([⟨(), 9, 9⟩, ⟨(), 3, 4⟩] : List (Node Unit)).length ∧
      g2.edges.length =
        ([⟨(), 0, 1, 5, 6⟩, ⟨(), 1, 0, 7, 8⟩] : List (Edge Unit)).length ∧
      g2.nodes.map Node.weight =
        ([⟨(), 9, 9⟩, ⟨(), 3, 4⟩] : List (Node Unit)).map Node.weight ∧
      g2.edges.map Edge.weight =
        ([⟨(), 0, 1, 5, 6⟩, ⟨(), 1, 0, 7, 8⟩] : List (Edge Unit)).map Edge.weight ∧
      (∀ i, (g2.edges.get? i).map (fun e => (e.source, e.target)) =
        (([⟨(), 0, 1, 5, 6⟩, ⟨(), 1, 0, 7, 8⟩] : List (Edge Unit)).get? i).map
          (fun e => (e.source, e.target))) ∧
      (∀ v nd (d : Bool), g2.nodes.get? v = some nd →
        ∃ L, chase g2.edges (sentinel 4) d
            (([⟨(), 0, 1, 5, 6⟩, ⟨(), 1, 0, 7, 8⟩] : List (Edge Unit)).length + 1)
            (nd.headAt d) = some L ∧
          ∀ i, i ∈ L ↔
            ∃ e, ([⟨(), 0, 1, 5, 6⟩, ⟨(), 1, 0, 7, 8⟩] : List (Edge Unit)).get? i =
              some e ∧ e.endp d = v)) :=
  ⟨⟨fun x rest => rfl, by decide, by decide, by decide⟩,
   c2_roundtrip 4 true serUnit deserUnit serUnit deserUnit
     ⟨[⟨(), 9, 9⟩, ⟨(), 3, 4⟩], [⟨(), 0, 1, 5, 6⟩, ⟨(), 1, 0, 7, 8⟩]⟩
     (fun x rest => rfl) (fun x rest => rfl)
     (by decide) (by decide) (by decide) (by decide) (by decide)⟩

end Petgraph
